import Mathlib

/-!
Verification of the PyECMA376-2 OPC package library (`pyecma376_2`).

The development shallowly embeds the functions of `package_model.py` and
`core_properties.py` and proves or refutes the specified properties.

Python strings are sequences of Unicode code points; they are modeled as
`List Nat` (type `PyStr`).  Bytes objects are modeled as `List Nat` as well.
Python dictionaries are modeled as association lists in which a new binding is
prepended and lookup takes the first match; this has the same lookup semantics
as in-place overwriting assignment.  Functions that can raise are modeled with
`Except` / `Option`.
-/

/-- Model of a Python `str`: the list of its Unicode code points. -/
abbrev PyStr := List Nat

/-- Model of a Python `bytes` object: the list of its byte values. -/
abbrev PyBytes := List Nat

/-- Injection of a Lean string literal into the `PyStr` model. -/
def pyS (s : String) : PyStr := s.data.map Char.toNat

/-- Python `s.split(sep)` for a one-character separator `sep` (as in
`part_name.split("/")` and `.split(".")` in `package_model.py`).  The result is
always non-empty, and splitting the empty string yields `[[]]`, exactly as in
Python. -/
def pySplit (sep : Nat) : PyStr → List PyStr
  | [] => [[]]
  | c :: rest =>
    match pySplit sep rest with
    | [] => [[]]
    | cur :: parts => if c = sep then [] :: cur :: parts else (c :: cur) :: parts

/-- Python `sep.join(parts)`. -/
def pyJoin (sep : PyStr) (parts : List PyStr) : PyStr := List.intercalate sep parts

/-- Code is an ASCII letter (regex classes `A-Za-z`). -/
def isAlphaCode (n : Nat) : Bool := (65 ≤ n && n ≤ 90) || (97 ≤ n && n ≤ 122)

/-- Code is an ASCII digit (regex class `0-9`). -/
def isDigitCode (n : Nat) : Bool := 48 ≤ n && n ≤ 57

/-- First character class of `RE_PART_NAME` in `package_model.py`:
letters, digits, and (by code point) hyphen 45, period 46, underscore 95,
tilde 126, percent 37, colon 58, at 64, bang 33, dollar 36, ampersand 38,
apostrophe 39, parens 40 41, star 42, plus 43, comma 44, semicolon 59,
equals 61. -/
def isC1Code (n : Nat) : Bool :=
  isAlphaCode n || isDigitCode n
  || n == 45 || n == 46 || n == 95 || n == 126 || n == 37 || n == 58 || n == 64
  || n == 33 || n == 36 || n == 38 || n == 39 || n == 40 || n == 41 || n == 42
  || n == 43 || n == 44 || n == 59 || n == 61

/-- Second character class of `RE_PART_NAME`: the first class minus the
period (code 46). -/
def isC2Code (n : Nat) : Bool := isC1Code n && n != 46

/-- Matches the regex piece `[c1]*[c2]` against an entire string: non-empty,
all characters in class 1, and the final character in class 2. -/
def matchSegment : PyStr → Bool
  | [] => false
  | [c] => isC2Code c
  | c :: d :: rest => isC1Code c && matchSegment (d :: rest)

/-- Full match of `RE_PART_NAME`, raw pattern `^(/[c1]*[c2])+$`.  Neither character
class contains the slash (code 47), so each repetition of the group consumes
exactly one slash and the text up to the next slash (or the end); the regex
therefore matches exactly the strings that start with a slash and whose
remaining slash-separated segments each match `[c1]*[c2]`. -/
def rePartNameMatch (s : PyStr) : Bool :=
  match s with
  | c :: rest => c == 47 && (pySplit 47 rest).all matchSegment
  | [] => false

/-- Anchored match of `RE_PART_NAME_FORBIDDEN`, compiled from the raw pattern
`%5c|%2f` with `re.IGNORECASE` and applied via `re.match`, which anchors at
position 0: this tests only whether
the string starts with `%5c` or `%2f` (case-insensitively); code points:
percent 37, digit five 53, digit two 50, letters c 99 / C 67, f 102 / F 70. -/
def rePartNameForbiddenMatch (s : PyStr) : Bool :=
  match s with
  | a :: b :: c :: _ =>
    a == 37 && ((b == 53 && (c == 99 || c == 67)) || (b == 50 && (c == 102 || c == 70)))
  | _ => false

/-- Errors raised by `check_part_name` (both are `ValueError`s in Python; the
spec calls this error kind *MalformedName*). -/
inductive PartNameError
  /-- Message: not a URI path with multiple segments / wrong start or end. -/
  | notAPartName
  /-- Message: contains URI encoded slash or backslash. -/
  | encodedSlash
deriving DecidableEq, Repr

/-- Embedding of `check_part_name` from `package_model.py`. -/
def check_part_name (part_name : PyStr) : Except PartNameError Unit :=
  if !rePartNameMatch part_name then .error .notAPartName
  else if rePartNameForbiddenMatch part_name then .error .encodedSlash
  else .ok ()

/-- Characters never quoted by `urllib.parse.quote(part_name, safe=...)` in
`normalize_part_name`: the always-safe set (ASCII letters, digits, underscore
95, period 46, hyphen 45, tilde 126) together with the `safe` argument, whose
code points are slash 47, hash 35, percent 37, brackets 91 93, equals 61,
colon 58, semicolon 59, dollar 36, ampersand 38, parens 40 41, plus 43,
comma 44, bang 33, question 63, star 42, at 64, apostrophe 39, tilde 126. -/
def quoteSafeCode (n : Nat) : Bool :=
  isAlphaCode n || isDigitCode n || n == 95 || n == 46 || n == 45 || n == 126
  || n == 47 || n == 35 || n == 37 || n == 91 || n == 93 || n == 61 || n == 58
  || n == 59 || n == 36 || n == 38 || n == 40 || n == 41 || n == 43 || n == 44
  || n == 33 || n == 63 || n == 42 || n == 64 || n == 39

/-- UTF-8 encoding of one code point, as used by `urllib.parse.quote` for
characters outside the safe set.  (Python raises on lone surrogates, which
cannot be UTF-8 encoded; the arithmetic below is the standard UTF-8 scheme and
agrees with Python on every encodable string.) -/
def utf8Bytes (n : Nat) : List Nat :=
  if n < 128 then [n]
  else if n < 2048 then [192 + n / 64, 128 + n % 64]
  else if n < 65536 then [224 + n / 4096, 128 + n / 64 % 64, 128 + n % 64]
  else [240 + n / 262144, 128 + n / 4096 % 64, 128 + n / 64 % 64, 128 + n % 64]

/-- Uppercase hexadecimal digit character for a value below 16 (as produced by
`urllib.parse.quote`). -/
def hexUpperCode (d : Nat) : Nat := if d < 10 then 48 + d else 55 + d

/-- Percent-encoding of one byte: percent sign (37) and two uppercase hex
digits. -/
def pctEncode (b : Nat) : List Nat := [37, hexUpperCode (b / 16), hexUpperCode (b % 16)]

/-- Treatment of a single character by `urllib.parse.quote`: safe characters
are kept, all others are percent-encoded byte-wise. -/
def quoteCode (n : Nat) : PyStr :=
  if quoteSafeCode n then [n] else (utf8Bytes n).flatMap pctEncode

/-- Embedding of `urllib.parse.quote(part_name, safe=...)` with the safe set
listed at `quoteSafeCode`, as called by `normalize_part_name`. -/
def pyQuote (s : PyStr) : PyStr := s.flatMap quoteCode

/-- Python `str.lower()` on ASCII: uppercase letters (65..90) are shifted to
lowercase, everything else is unchanged.  In `normalize_part_name`, `.lower()`
is applied to the output of `quote`, which is pure ASCII, so the ASCII case
map is faithful there. -/
def lowerCode (n : Nat) : Nat := if 65 ≤ n ∧ n ≤ 90 then n + 32 else n

/-- Embedding of `normalize_part_name` from `package_model.py`: percent-quote,
then lowercase. -/
def normalize_part_name (part_name : PyStr) : PyStr :=
  (pyQuote part_name).map lowerCode

/-- Embedding of `part_realpath` from `package_model.py`.  `result.pop()` on
an empty list raises `IndexError` in Python, modeled as `none`. -/
def part_realpath (part_name source_part_name : PyStr) : Option PyStr :=
  let path_segments := pySplit 47 part_name
  let start := (pySplit 47 source_part_name).dropLast
  (path_segments.foldlM (fun result segment =>
      if segment = pyS "." then some result
      else if segment = pyS ".." then
        if result.isEmpty then none else some result.dropLast
      else some (result ++ [segment])) start).map
    (pyJoin (pyS "/"))

/-- Embedding of `_rels_part_for` from `package_model.py`. -/
def rels_part_for (part_name : PyStr) : PyStr :=
  let name_parts := pySplit 47 part_name
  pyJoin (pyS "/") (name_parts.dropLast ++ [pyS "_rels", name_parts.getLastD []])
    ++ pyS ".rels"

/-- Lookup in an association list modeling a Python `dict` with `PyStr` keys:
new bindings are prepended by the operations below and lookup takes the first
match, which has the same lookup semantics as overwriting assignment. -/
def assocLookup (m : List (PyStr × String)) (k : PyStr) : Option String :=
  match m with
  | [] => none
  | (k2, v) :: rest => if k = k2 then some v else assocLookup rest k

/-- Embedding of `ContentTypesData` from `package_model.py`: `default_types`
maps (lowercased) file extensions to MIME types, `overrides` maps normalized
part names to MIME types. -/
structure ContentTypesData where
  default_types : List (PyStr × String)
  overrides : List (PyStr × String)
deriving DecidableEq, Repr

/-- Embedding of `ContentTypesData.get_content_type`: normalize, try the
Overrides, else look up the extension (Python
`part_name.split("/")[-1].split(".")[-1]`) in the Defaults. -/
def get_content_type (ct : ContentTypesData) (part_name : PyStr) : Option String :=
  let pn := normalize_part_name part_name
  match assocLookup ct.overrides pn with
  | some t => some t
  | none =>
    let extension := (pySplit 46 ((pySplit 47 pn).getLastD [])).getLastD []
    assocLookup ct.default_types extension

/-- Errors raised by `OPCPackageWriter.open_part`. -/
inductive OpenPartError
  /-- A `ValueError` from `check_part_name` (spec kind *MalformedName*). -/
  | malformedName (e : PartNameError)
  /-- The `RuntimeError` raised when the content type disagrees after the
  Content Types Stream has been written (spec kind *InconsistentManifest*). -/
  | inconsistentManifest
deriving DecidableEq, Repr

/-- State of an `OPCPackageWriter` whose physical backend declares a content
types stream name (`has_content_types_stream` models
`content_types_stream_name is not None`; the two manifest fields exist only
in that case and are defaulted below otherwise). -/
structure OPCPackageWriter where
  has_content_types_stream : Bool
  content_types : ContentTypesData
  content_types_written : Bool
deriving DecidableEq, Repr

/-- Embedding of `OPCPackageWriter.open_part`: normalize the name, validate
it, then reconcile the manifest.  The final `create_item` call only returns
the physical write stream and does not touch the modeled state; the returned
value is the updated writer state. -/
def writer_open_part (w : OPCPackageWriter) (name : PyStr) (content_type : String) :
    Except OpenPartError OPCPackageWriter :=
  let nname := normalize_part_name name
  match check_part_name nname with
  | .error e => .error (.malformedName e)
  | .ok () =>
    if w.has_content_types_stream then
      if get_content_type w.content_types nname ≠ some content_type then
        if w.content_types_written then .error .inconsistentManifest
        else .ok { w with
          content_types := { w.content_types with
            overrides := (nname, content_type) :: w.content_types.overrides } }
      else .ok w
    else .ok w

/-- A freshly constructed writer over a backend with a content types stream
(as built by `OPCPackageWriter.__init__`, e.g. `ZipPackageWriter`): empty
manifest, nothing written yet. -/
def fresh_writer : OPCPackageWriter := ⟨true, ⟨[], []⟩, false⟩

/-- Runs a sequence of `open_part(name, ct)` calls on a writer, stopping at
the first error. -/
def run_open_parts (w : OPCPackageWriter) (ops : List (PyStr × String)) :
    Except OpenPartError OPCPackageWriter :=
  ops.foldlM (fun w op => writer_open_part w op.1 op.2) w

/-- Specification-side auxiliary for the amended manifest-consistency claim:
the content type supplied by the last `open_part` call of `ops` whose
normalized part name equals that of `k` (if any). -/
def last_supplied_type (ops : List (PyStr × String)) (k : PyStr) : Option String :=
  ((ops.filter fun p => normalize_part_name p.1 == normalize_part_name k).getLast?).map
    Prod.snd

/-- Decimal representation of a natural number, as interpolated by Python
`"{}".format(fragment_number)`. -/
def nat_repr (n : Nat) : PyStr := (Nat.toDigits 10 n).map Char.toNat

/-- Physical item name `"{}/[{}].piece".format(name, k)`. -/
def piece_item_name (name : PyStr) (k : Nat) : PyStr :=
  name ++ pyS "/[" ++ nat_repr k ++ pyS "].piece"

/-- Physical item name `"{}/[{}].last.piece".format(name, k)`. -/
def last_piece_item_name (name : PyStr) (k : Nat) : PyStr :=
  name ++ pyS "/[" ++ nat_repr k ++ pyS "].last.piece"

/-- Read surface of the physical backend used by `FragmentedPartReader`:
`open_item` either yields the byte content of the named item or raises
`KeyError` (modeled as `none`). -/
abbrev PhysicalItems := PyStr → Option PyBytes

/-- Embedding of `FragmentedPartReader._open_next_item`: try
`name/[k].piece`; on `KeyError` set `finished` and try `name/[k].last.piece`;
if that is missing too, re-raise `KeyError` ("Fragment ... is missing in
package", spec kind *MissingFragment*).  Returns the opened content, the new
`fragment_number` and the new `finished` flag (unchanged by the first
branch). -/
def open_next_item (pkg : PhysicalItems) (name : PyStr) (fragment_number : Nat)
    (finished : Bool) : Except Unit (PyBytes × Nat × Bool) :=
  match pkg (piece_item_name name fragment_number) with
  | some data => .ok (data, fragment_number + 1, finished)
  | none =>
    match pkg (last_piece_item_name name fragment_number) with
    | some data => .ok (data, fragment_number + 1, true)
    | none => .error ()

/-- State of a `FragmentedPartReader`; `current_item_handle` holds the
still-unread bytes of the currently open fragment. -/
structure FragmentedPartReader where
  name : PyStr
  fragment_number : Nat
  finished : Bool
  current_item_handle : PyBytes
deriving Repr

/-- Embedding of `FragmentedPartReader.__init__`: stores the name and opens
the first item (fragment number 0, not finished). -/
def mk_fragmented_part_reader (pkg : PhysicalItems) (name : PyStr) :
    Except Unit FragmentedPartReader :=
  match open_next_item pkg name 0 false with
  | .ok (data, k, fin) => .ok ⟨name, k, fin, data⟩
  | .error e => .error e

/-- The `while` loop of `FragmentedPartReader.read` for `size = -1`: with
`size = -1` the current handle is read to its end, and the loop keeps opening
and appending the next fragment until `finished` is set.  The loop is modeled
with explicit fuel (one unit per opened fragment); the theorems below supply
enough fuel for the packages they consider, so the fuel-exhaustion branch is
never taken there. -/
def fpr_read_loop (pkg : PhysicalItems) (name : PyStr) :
    Nat → Nat → Bool → PyBytes → Except Unit PyBytes
  | 0, _, finished, acc => if finished then .ok acc else .error ()
  | fuel + 1, k, finished, acc =>
    if finished then .ok acc
    else
      match open_next_item pkg name k finished with
      | .error e => .error e
      | .ok (data, k2, fin2) => fpr_read_loop pkg name fuel k2 fin2 (acc ++ data)

/-- Embedding of `FragmentedPartReader.read(-1)` called on a freshly
constructed reader and run to completion: the bytes of the currently open
fragment followed by all remaining fragments. -/
def fpr_read_all (pkg : PhysicalItems) (r : FragmentedPartReader) (fuel : Nat) :
    Except Unit PyBytes :=
  fpr_read_loop pkg r.name fuel r.fragment_number r.finished r.current_item_handle

/-- A parsed XML element as delivered by `lxml.etree.iterparse` end events:
its fully qualified tag (Clark form, namespace in braces before the local
name) and its
attributes. -/
structure XMLElem where
  tag : String
  attrib : List (String × String)
  /-- Character data directly inside the element (`elem.text`). -/
  text : String
deriving DecidableEq, Repr

/-- Attribute lookup, `elem.attrib.get(key)`. -/
def attribLookup (attrs : List (String × String)) (k : String) : Option String :=
  match attrs with
  | [] => none
  | (k2, v) :: rest => if k = k2 then some v else attribLookup rest k

/-- Embedding of the `OPCTargetMode` enum. -/
inductive OPCTargetMode
  | INTERNAL
  | EXTERNAL
deriving DecidableEq, Repr

/-- Python `str.upper()` modeled by the ASCII case map `Char.toUpper`; the
theorems that quantify over serializations restrict themselves to ASCII
strings, where the two agree. -/
def pyUpper (s : String) : String := ⟨s.data.map Char.toUpper⟩

/-- Embedding of `OPCTargetMode.from_serialization`:
`cls[serialization.upper()]`, i.e. look the uppercased string up among the
member names INTERNAL and EXTERNAL; anything else raises `KeyError` (spec
kind *MalformedRelationship*). -/
def target_mode_from_serialization (s : String) : Except Unit OPCTargetMode :=
  let u := pyUpper s
  if u = "INTERNAL" then .ok .INTERNAL
  else if u = "EXTERNAL" then .ok .EXTERNAL
  else .error ()

/-- Embedding of the `OPCRelationship` named tuple. -/
structure OPCRelationship where
  id : String
  type : String
  target : String
  target_mode : OPCTargetMode
deriving DecidableEq, Repr

/-- The qualified tag `RELATIONSHIPS_XML_NAMESPACE + "Relationship"`. -/
def relationshipTag : String :=
  "\x7bhttp://schemas.openxmlformats.org/package/2006/relationships\x7dRelationship"

/-- Errors of `_read_relationships`. -/
inductive RelReadError
  /-- `KeyError` from `elem.attrib["Id"|"Type"|"Target"]`. -/
  | missingAttribute
  /-- `KeyError` from `OPCTargetMode.from_serialization` (spec kind
  *MalformedRelationship*). -/
  | malformedTargetMode
deriving DecidableEq, Repr

/-- Mandatory attribute access `elem.attrib[k]`. -/
def requiredAttrib (elem : XMLElem) (k : String) : Except RelReadError String :=
  match attribLookup elem.attrib k with
  | some v => .ok v
  | none => .error .missingAttribute

/-- Builds the `OPCRelationship` yielded by `_read_relationships` for one
`Relationship` element: mandatory `Id`, `Type`, `Target`, and
`elem.attrib.get` of `TargetMode` with default `Internal`, decoded through
`from_serialization`. -/
def read_relationship_elem (elem : XMLElem) : Except RelReadError OPCRelationship := do
  let i ← requiredAttrib elem "Id"
  let t ← requiredAttrib elem "Type"
  let tgt ← requiredAttrib elem "Target"
  match target_mode_from_serialization ((attribLookup elem.attrib "TargetMode").getD "Internal") with
  | .ok m => .ok ⟨i, t, tgt, m⟩
  | .error () => .error .malformedTargetMode

/-- Embedding of `OPCPackageReader._read_relationships`: walk the parsed
elements in document order, yield one relationship per element whose tag is
the qualified `Relationship` tag, ignore every other element.  The lazy
generator is modeled as run to completion, stopping at the first raised
error. -/
def read_relationships (elems : List XMLElem) : Except RelReadError (List OPCRelationship) :=
  elems.foldlM
    (fun acc elem =>
      if elem.tag = relationshipTag then
        (read_relationship_elem elem).map fun r => acc ++ [r]
      else .ok acc)
    []

/-- The slice of `OPCPackageReader` state needed by relationship queries:
`parts` holds the normalized part names of `self._parts`, and `rels_content`
gives the parsed XML elements obtained by opening a present part (the result
of `etree.iterparse` on its stream). -/
structure RelsPackageReader where
  parts : List PyStr
  rels_content : PyStr → List XMLElem

/-- Embedding of `OPCPackageReader.open_part` as used on `.rels` parts: look
up the normalized name in `self._parts` and raise `KeyError` ("Could not find
part ... in package") when absent; when present, the opened stream parses to
the elements given by `rels_content`. -/
def reader_open_part (r : RelsPackageReader) (name : PyStr) : Except Unit (List XMLElem) :=
  if normalize_part_name name ∈ r.parts then .ok (r.rels_content (normalize_part_name name))
  else .error ()

/-- Embedding of `OPCPackageReader.get_raw_relationships`: open the
`_rels_part_for(part_name)` part; a `KeyError` yields the empty sequence,
otherwise the stream is decoded by `_read_relationships`. -/
def get_raw_relationships (r : RelsPackageReader) (part_name : PyStr) :
    Except RelReadError (List OPCRelationship) :=
  match reader_open_part r (rels_part_for part_name) with
  | .error () => .ok []
  | .ok elems => read_relationships elems

/-- The OPC core-properties namespace of `core_properties.py`, in Clark
form. -/
def cpNS : String :=
  "\x7bhttp://schemas.openxmlformats.org/package/2006/metadata/core-properties\x7d"

/-- The Dublin Core namespace. -/
def dcNS : String := "\x7bhttp://purl.org/dc/elements/1.1/\x7d"

/-- The DC Terms namespace. -/
def dctermsNS : String := "\x7bhttp://purl.org/dc/terms/\x7d"

/-- Embedding of `extract_str` from `core_properties.py`.  The source reads
`return ""  # TODO`: the element content is never extracted and every string
(and date) field decodes to the empty string. -/
def extract_str (_el : XMLElem) : String := ""

/-- Embedding of `extract_keywords` from `core_properties.py`.  The source
reads `# TODO` / `return []`: the keyword list always decodes as empty. -/
def extract_keywords (_el : XMLElem) : List (Option String × String) := []

/-- Embedding of the `OPCCoreProperties` record (all fields optional, unset
at construction).  The date-typed fields hold whatever the extractor
produces; with the stub `extract_str` that is a string. -/
structure OPCCoreProperties where
  category : Option String := none
  contentStatus : Option String := none
  created : Option String := none
  creator : Option String := none
  description : Option String := none
  identifier : Option String := none
  keywords : Option (List (Option String × String)) := none
  language : Option String := none
  lastModifiedBy : Option String := none
  lastPrinted : Option String := none
  modified : Option String := none
  revision : Option String := none
  subject : Option String := none
  title : Option String := none
  version : Option String := none
deriving DecidableEq, Repr

/-- One step of `OPCCoreProperties.from_xml`: dispatch on the element tag
through `ATTRIBUTES_BY_TAG` and set the matching field with its extractor
(`extract_str`, or `extract_keywords` for `keywords`); elements with unknown
tags are ignored. -/
def core_properties_set_by_tag (r : OPCCoreProperties) (el : XMLElem) : OPCCoreProperties :=
  if el.tag = cpNS ++ "category" then { r with category := some (extract_str el) }
  else if el.tag = cpNS ++ "contentStatus" then { r with contentStatus := some (extract_str el) }
  else if el.tag = dctermsNS ++ "created" then { r with created := some (extract_str el) }
  else if el.tag = dcNS ++ "creator" then { r with creator := some (extract_str el) }
  else if el.tag = dcNS ++ "description" then { r with description := some (extract_str el) }
  else if el.tag = dcNS ++ "identifier" then { r with identifier := some (extract_str el) }
  else if el.tag = cpNS ++ "keywords" then { r with keywords := some (extract_keywords el) }
  else if el.tag = dcNS ++ "language" then { r with language := some (extract_str el) }
  else if el.tag = cpNS ++ "lastModifiedBy" then { r with lastModifiedBy := some (extract_str el) }
  else if el.tag = cpNS ++ "lastPrinted" then { r with lastPrinted := some (extract_str el) }
  else if el.tag = dctermsNS ++ "modified" then { r with modified := some (extract_str el) }
  else if el.tag = cpNS ++ "revision" then { r with revision := some (extract_str el) }
  else if el.tag = dcNS ++ "subject" then { r with subject := some (extract_str el) }
  else if el.tag = dcNS ++ "title" then { r with title := some (extract_str el) }
  else if el.tag = cpNS ++ "version" then { r with version := some (extract_str el) }
  else r

/-- Embedding of `OPCCoreProperties.from_xml`: start from a fresh record and
process the parsed elements in document order. -/
def core_properties_from_xml (elems : List XMLElem) : OPCCoreProperties :=
  elems.foldl core_properties_set_by_tag {}

/-- A Python string whose code points are Unicode scalar values, i.e. a
string on which `urllib.parse.quote` cannot raise (no lone surrogates). -/
abbrev ValidPyStr (s : PyStr) : Prop := ∀ c ∈ s, Nat.isValidChar c

/-- C3: the spec claims that an absolute reference starting with a slash
resets to the root, so `part_realpath("/document.xml", "/word/a.xml")` should
be `"/document.xml"`, and `test_utils.py` asserts exactly that.  The code has
no special case for references that start with a slash: splitting the
reference yields a leading empty segment, which is appended like an ordinary
segment, producing `"/word//document.xml"`. -/
theorem C3_part_realpath_absolute_reference_bug :
    part_realpath (pyS "/document.xml") (pyS "/word/anotherPart.xml")
        = some (pyS "/word//document.xml")
    ∧ pyS "/word//document.xml" ≠ pyS "/document.xml" := by
  constructor
  · decide
  · decide

/-- C4: the spec and `test_utils.py` demand that a part name containing the
percent-encoded sequence `%2F` or `%5C` anywhere (any case) is rejected, in
particular `"/ein%2fDokument.xml"`.  The code applies
`RE_PART_NAME_FORBIDDEN` with `re.match`, which anchors at the start of the
string, so the embedded `%2f` is never seen and the name is accepted. -/
theorem C4_check_accepts_embedded_encoded_slash :
    check_part_name (pyS "/ein%2fDokument.xml") = .ok () := by rfl

/-- The ASCII case map is idempotent. -/
theorem lowerCode_idem (c : Nat) : lowerCode (lowerCode c) = lowerCode c := by
  simp only [lowerCode]
  split_ifs <;> omega

/-- Lowercasing cannot leave the quote-safe set. -/
theorem quoteSafeCode_lowerCode (c : Nat) :
    quoteSafeCode (lowerCode c) = quoteSafeCode c := by
  rw [Bool.eq_iff_iff]
  simp only [quoteSafeCode, isAlphaCode, isDigitCode, lowerCode, Bool.or_eq_true,
    Bool.and_eq_true, decide_eq_true_eq, beq_iff_eq]
  split_ifs <;> omega

/-- Lowercasing preserves membership in the first `RE_PART_NAME` class. -/
theorem isC1Code_lowerCode (c : Nat) : isC1Code (lowerCode c) = isC1Code c := by
  rw [Bool.eq_iff_iff]
  simp only [isC1Code, isAlphaCode, isDigitCode, lowerCode, Bool.or_eq_true,
    Bool.and_eq_true, decide_eq_true_eq, beq_iff_eq]
  split_ifs <;> omega

/-- Lowercasing preserves membership in the second `RE_PART_NAME` class. -/
theorem isC2Code_lowerCode (c : Nat) : isC2Code (lowerCode c) = isC2Code c := by
  rw [Bool.eq_iff_iff]
  simp only [isC2Code, isC1Code, isAlphaCode, isDigitCode, lowerCode, Bool.or_eq_true,
    Bool.and_eq_true, decide_eq_true_eq, beq_iff_eq, bne_iff_ne, ne_eq]
  split_ifs <;> omega

/-- Lowercasing fixes the slash and maps nothing else onto it. -/
theorem lowerCode_eq_47 (c : Nat) : (lowerCode c = 47) ↔ (c = 47) := by
  simp only [lowerCode]
  split_ifs <;> omega

/-- Every character admitted by `RE_PART_NAME` (class 1 or the slash) is kept
verbatim by `urllib.parse.quote` with the safe set of
`normalize_part_name`. -/
theorem quoteSafeCode_of_isC1 (c : Nat) (h : isC1Code c = true ∨ c = 47) :
    quoteSafeCode c = true := by
  simp only [isC1Code, isAlphaCode, isDigitCode, Bool.or_eq_true, Bool.and_eq_true,
    decide_eq_true_eq, beq_iff_eq] at h
  simp only [quoteSafeCode, isAlphaCode, isDigitCode, Bool.or_eq_true, Bool.and_eq_true,
    decide_eq_true_eq, beq_iff_eq]
  omega

/-- Uppercase hexadecimal digits are quote-safe. -/
theorem quoteSafeCode_hexUpperCode (d : Nat) (h : d < 16) :
    quoteSafeCode (hexUpperCode d) = true := by
  simp only [quoteSafeCode, isAlphaCode, isDigitCode, hexUpperCode, Bool.or_eq_true,
    Bool.and_eq_true, decide_eq_true_eq, beq_iff_eq]
  split_ifs <;> omega

/-- UTF-8 bytes of a Unicode scalar value are bytes. -/
theorem utf8Bytes_lt_256 (n b : Nat) (hv : Nat.isValidChar n) (hb : b ∈ utf8Bytes n) :
    b < 256 := by
  obtain h | h := hv
  all_goals
    simp only [utf8Bytes] at hb
    split_ifs at hb <;>
      simp only [List.mem_cons, List.mem_singleton, List.not_mem_nil, or_false] at hb <;>
      omega

/-- Every character emitted by `quote` for a Unicode scalar value is
quote-safe: safe characters are kept, all others turn into a percent sign and
two uppercase hex digits. -/
theorem quoteSafeCode_of_mem_quoteCode (n m : Nat) (hv : Nat.isValidChar n)
    (hm : m ∈ quoteCode n) : quoteSafeCode m = true := by
  unfold quoteCode at hm
  split at hm
  · next hsafe =>
    simp only [List.mem_singleton] at hm
    exact hm ▸ hsafe
  · rw [List.mem_flatMap] at hm
    obtain ⟨b, hb, hmb⟩ := hm
    have hb256 : b < 256 := utf8Bytes_lt_256 n b hv hb
    simp only [pctEncode, List.mem_cons, List.mem_singleton, List.not_mem_nil,
      or_false] at hmb
    obtain rfl | rfl | rfl := hmb
    · rfl
    · exact quoteSafeCode_hexUpperCode _ (by omega)
    · exact quoteSafeCode_hexUpperCode _ (by omega)

/-- Strings of quote-safe characters are fixed by `quote`. -/
theorem pyQuote_eq_self (s : PyStr) (h : ∀ c ∈ s, quoteSafeCode c = true) :
    pyQuote s = s := by
  induction s with
  | nil => rfl
  | cons c rest ih =>
    have hc : quoteSafeCode c = true := h c (List.mem_cons_self c rest)
    simp only [pyQuote, List.flatMap_cons] at *
    rw [quoteCode, if_pos hc, ih fun d hd => h d (List.mem_cons_of_mem c hd)]
    rfl

/-- Strings whose characters are quote-safe and lowercase are fixed points of
`normalize_part_name`. -/
theorem normalize_fix_of_safe (s : PyStr) (hsafe : ∀ c ∈ s, quoteSafeCode c = true)
    (hlow : ∀ c ∈ s, lowerCode c = c) : normalize_part_name s = s := by
  unfold normalize_part_name
  rw [pyQuote_eq_self s hsafe]
  have : s.map lowerCode = s.map id := List.map_congr_left hlow
  simpa using this

/-- Every character of a normalized name is quote-safe (for strings of
Unicode scalar values). -/
theorem mem_normalize_safe (x : PyStr) (hv : ValidPyStr x) (c : Nat)
    (hc : c ∈ normalize_part_name x) : quoteSafeCode c = true := by
  unfold normalize_part_name at hc
  obtain ⟨d, hd, rfl⟩ := List.mem_map.1 hc
  obtain ⟨e, he, hdq⟩ := List.mem_flatMap.1 hd
  rw [quoteSafeCode_lowerCode]
  exact quoteSafeCode_of_mem_quoteCode e d (hv e he) hdq

/-- Every character of a normalized name is lowercase. -/
theorem mem_normalize_lower (x : PyStr) (c : Nat) (hc : c ∈ normalize_part_name x) :
    lowerCode c = c := by
  unfold normalize_part_name at hc
  obtain ⟨d, _, rfl⟩ := List.mem_map.1 hc
  exact lowerCode_idem d

/-- Idempotence of `normalize_part_name` on Python strings without lone
surrogates. -/
theorem normalize_part_name_idem (x : PyStr) (hv : ValidPyStr x) :
    normalize_part_name (normalize_part_name x) = normalize_part_name x :=
  normalize_fix_of_safe _ (mem_normalize_safe x hv) (mem_normalize_lower x)

/-- Python `split` never returns an empty list of parts. -/
theorem pySplit_ne_nil (sep : Nat) (s : PyStr) : pySplit sep s ≠ [] := by
  cases s with
  | nil => simp [pySplit]
  | cons c rest =>
    rw [pySplit]
    cases pySplit sep rest with
    | nil => simp
    | cons cur parts => by_cases h : c = sep <;> simp [h]

/-- Every character of a string is either the separator or sits in one of the
parts produced by `split`. -/
theorem mem_pySplit (sep : Nat) (s : PyStr) (x : Nat) (hx : x ∈ s) :
    x = sep ∨ ∃ seg ∈ pySplit sep s, x ∈ seg := by
  induction s with
  | nil => cases hx
  | cons c rest ih =>
    obtain ⟨cur, parts, hsplit⟩ : ∃ cur parts, pySplit sep rest = cur :: parts := by
      cases h : pySplit sep rest with
      | nil => exact absurd h (pySplit_ne_nil sep rest)
      | cons cur parts => exact ⟨cur, parts, rfl⟩
    have hres : pySplit sep (c :: rest)
        = if c = sep then [] :: cur :: parts else (c :: cur) :: parts := by
      rw [pySplit, hsplit]
    rcases List.mem_cons.1 hx with rfl | hxr
    · by_cases hc : x = sep
      · exact Or.inl hc
      · refine Or.inr ⟨x :: cur, ?_, List.mem_cons_self x cur⟩
        rw [hres, if_neg hc]
        exact List.mem_cons_self _ _
    · rcases ih hxr with h47 | ⟨seg, hseg, hxseg⟩
      · exact Or.inl h47
      · rw [hsplit, List.mem_cons] at hseg
        refine Or.inr ?_
        by_cases hc : c = sep
        · rw [hres, if_pos hc]
          rcases hseg with rfl | hseg
          · exact ⟨seg, by simp, hxseg⟩
          · exact ⟨seg, by simp [hseg], hxseg⟩
        · rw [hres, if_neg hc]
          rcases hseg with rfl | hseg
          · exact ⟨c :: seg, by simp, List.mem_cons_of_mem c hxseg⟩
          · exact ⟨seg, by simp [hseg], hxseg⟩

/-- Characters of a segment matching `[c1]*[c2]` are in class 1. -/
theorem isC1Code_of_matchSegment (seg : PyStr) (h : matchSegment seg = true)
    (x : Nat) (hx : x ∈ seg) : isC1Code x = true := by
  induction seg with
  | nil => cases hx
  | cons c rest ih =>
    cases rest with
    | nil =>
      simp only [List.mem_singleton] at hx
      subst hx
      simp only [matchSegment, isC2Code, Bool.and_eq_true] at h
      exact h.1
    | cons d t =>
      simp only [matchSegment, Bool.and_eq_true] at h
      rcases List.mem_cons.1 hx with rfl | hxr
      · exact h.1
      · exact ih h.2 hxr

/-- Unfolding of a successful `check_part_name`. -/
theorem check_part_name_ok_iff (s : PyStr) :
    check_part_name s = .ok () ↔
      rePartNameMatch s = true ∧ rePartNameForbiddenMatch s = false := by
  unfold check_part_name
  cases hm : rePartNameMatch s <;> cases hf : rePartNameForbiddenMatch s <;>
    simp [hm, hf]

/-- Characters of a name accepted by `check_part_name` are in class 1 or are
the slash. -/
theorem check_ok_mem (s : PyStr) (h : check_part_name s = .ok ()) (x : Nat)
    (hx : x ∈ s) : isC1Code x = true ∨ x = 47 := by
  have hm := ((check_part_name_ok_iff s).1 h).1
  cases s with
  | nil => cases hx
  | cons c rest =>
    simp only [rePartNameMatch, Bool.and_eq_true, beq_iff_eq] at hm
    rcases List.mem_cons.1 hx with rfl | hxr
    · exact Or.inr hm.1
    · rcases mem_pySplit 47 rest x hxr with h47 | ⟨seg, hseg, hxseg⟩
      · exact Or.inr h47
      · have := (List.all_eq_true.1 hm.2) seg hseg
        exact Or.inl (isC1Code_of_matchSegment seg this x hxseg)

/-- On an accepted name, `quote` is the identity and normalization reduces to
lowercasing. -/
theorem normalize_eq_map_lower_of_check (x : PyStr) (h : check_part_name x = .ok ()) :
    normalize_part_name x = x.map lowerCode := by
  unfold normalize_part_name
  rw [pyQuote_eq_self x fun c hc => quoteSafeCode_of_isC1 c (check_ok_mem x h c hc)]

/-- Lowercasing a string commutes with splitting on the slash. -/
theorem pySplit_map_lowerCode (s : PyStr) :
    pySplit 47 (s.map lowerCode) = (pySplit 47 s).map (List.map lowerCode) := by
  induction s with
  | nil => rfl
  | cons c rest ih =>
    obtain ⟨cur, parts, hsplit⟩ : ∃ cur parts, pySplit 47 rest = cur :: parts := by
      cases h : pySplit 47 rest with
      | nil => exact absurd h (pySplit_ne_nil 47 rest)
      | cons cur parts => exact ⟨cur, parts, rfl⟩
    simp only [List.map_cons, pySplit, ih, hsplit, List.map_cons]
    by_cases hc : c = 47
    · rw [if_pos ((lowerCode_eq_47 c).2 hc), if_pos hc]
      simp
    · rw [if_neg (fun hl => hc ((lowerCode_eq_47 c).1 hl)), if_neg hc]
      simp

/-- Lowercasing preserves the segment match. -/
theorem matchSegment_map_lowerCode (seg : PyStr) :
    matchSegment (seg.map lowerCode) = matchSegment seg := by
  induction seg with
  | nil => rfl
  | cons c rest ih =>
    cases rest with
    | nil => simp [matchSegment, isC2Code_lowerCode]
    | cons d t =>
      simp only [List.map_cons, matchSegment, isC1Code_lowerCode] at *
      rw [ih]

/-- Lowercasing preserves the full part-name regex match. -/
theorem rePartNameMatch_map_lowerCode (s : PyStr) :
    rePartNameMatch (s.map lowerCode) = rePartNameMatch s := by
  cases s with
  | nil => rfl
  | cons c rest =>
    simp only [List.map_cons, rePartNameMatch, pySplit_map_lowerCode, List.all_map]
    have h1 : (lowerCode c == 47) = (c == 47) := by
      rw [Bool.eq_iff_iff]
      simp [lowerCode_eq_47]
    have h2 : (pySplit 47 rest).all (matchSegment ∘ List.map lowerCode)
        = (pySplit 47 rest).all matchSegment := by
      induction pySplit 47 rest with
      | nil => rfl
      | cons p ps ih => simp only [List.all_cons, ih, Function.comp,
          matchSegment_map_lowerCode]
    rw [h1, h2]

/-- The anchored forbidden-pattern regex never fires on a string starting
with a slash. -/
theorem rePartNameForbiddenMatch_cons47 (t : PyStr) :
    rePartNameForbiddenMatch (47 :: t) = false := by
  cases t with
  | nil => rfl
  | cons b u =>
    cases u with
    | nil => rfl
    | cons c v => simp [rePartNameForbiddenMatch]

/-- C5: `normalize` is idempotent (on strings `urllib.parse.quote` accepts,
i.e. without lone surrogates), and every name accepted by `check` normalizes
to an accepted name. -/
theorem C5_normalize_idempotent_and_check_preserving (x : PyStr) :
    (ValidPyStr x →
      normalize_part_name (normalize_part_name x) = normalize_part_name x)
    ∧ (check_part_name x = .ok () →
      check_part_name (normalize_part_name x) = .ok ()) := by
  refine ⟨normalize_part_name_idem x, fun h => ?_⟩
  rw [normalize_eq_map_lower_of_check x h]
  obtain ⟨hm, _⟩ := (check_part_name_ok_iff x).1 h
  rw [check_part_name_ok_iff]
  refine ⟨by rw [rePartNameMatch_map_lowerCode]; exact hm, ?_⟩
  cases x with
  | nil => simp [rePartNameMatch] at hm
  | cons c rest =>
    simp only [rePartNameMatch, Bool.and_eq_true, beq_iff_eq] at hm
    obtain ⟨rfl, -⟩ := hm
    have h47 : lowerCode 47 = 47 := by simp [lowerCode]
    simp only [List.map_cons, h47]
    exact rePartNameForbiddenMatch_cons47 _

/-- Witness for C5 at the concrete name `"/Word/Document.XML"`. -/
theorem C5_witness :
    normalize_part_name (normalize_part_name (pyS "/Word/Document.XML"))
        = normalize_part_name (pyS "/Word/Document.XML")
    ∧ check_part_name (normalize_part_name (pyS "/Word/Document.XML")) = .ok () :=
  ⟨(C5_normalize_idempotent_and_check_preserving (pyS "/Word/Document.XML")).1
      (by decide),
    (C5_normalize_idempotent_and_check_preserving (pyS "/Word/Document.XML")).2
      (by rfl)⟩

/-- Splitting on a separator that does not occur in the string returns the
whole string as the only part. -/
theorem pySplit_eq_self_of_not_mem (sep : Nat) (s : PyStr) (h : sep ∉ s) :
    pySplit sep s = [s] := by
  induction s with
  | nil => rfl
  | cons c rest ih =>
    have hc : ¬ c = sep := fun hc => h (hc ▸ List.mem_cons_self c rest)
    simp [pySplit, ih fun hm => h (List.mem_cons_of_mem c hm), hc]

/-- C9: when the last slash-segment of the normalized part name contains no
period, `get_content_type` takes the whole segment as the extension key for
the Default lookup (Python `seg.split(".")[-1]` of a dot-free `seg` is `seg`
itself), so such a part can resolve through a Default registered under the
full segment name. -/
theorem C9_dotless_segment_is_extension_key
    (ct : ContentTypesData) (part_name : PyStr)
    (hov : assocLookup ct.overrides (normalize_part_name part_name) = none)
    (hdot : 46 ∉ (pySplit 47 (normalize_part_name part_name)).getLastD []) :
    get_content_type ct part_name
      = assocLookup ct.default_types
          ((pySplit 47 (normalize_part_name part_name)).getLastD []) := by
  simp only [get_content_type, hov, pySplit_eq_self_of_not_mem 46 _ hdot]
  rfl

/-- Witness for C9: a part `/folder/file` with a dot-free last segment
resolves through the Default registered under `file`. -/
theorem C9_witness :
    get_content_type ⟨[(pyS "file", "text/plain")], []⟩ (pyS "/folder/file")
      = some "text/plain" :=
  (C9_dotless_segment_is_extension_key ⟨[(pyS "file", "text/plain")], []⟩
      (pyS "/folder/file") (by rfl) (by decide)).trans (by rfl)

/-- Resolution of a content type only depends on the normalized part name. -/
theorem get_content_type_congr (ct : ContentTypesData) (k1 k2 : PyStr)
    (h : normalize_part_name k1 = normalize_part_name k2) :
    get_content_type ct k1 = get_content_type ct k2 := by
  unfold get_content_type
  rw [h]

/-- A normalized name that passes `check_part_name` is a fixed point of
normalization (its characters are all quote-safe and lowercase). -/
theorem normalize_fix_of_check (name : PyStr)
    (h : check_part_name (normalize_part_name name) = .ok ()) :
    normalize_part_name (normalize_part_name name) = normalize_part_name name :=
  normalize_fix_of_safe _
    (fun c hc => quoteSafeCode_of_isC1 c (check_ok_mem _ h c hc))
    (mem_normalize_lower name)

/-- Lookup after prepending a binding whose key is the normalized query. -/
theorem get_content_type_override_hit (d ov : List (PyStr × String)) (nn k : PyStr)
    (ct : String) (h : normalize_part_name k = nn) :
    get_content_type ⟨d, (nn, ct) :: ov⟩ k = some ct := by
  simp only [get_content_type, assocLookup]
  rw [if_pos h]

/-- Lookup after prepending a binding with a different key. -/
theorem get_content_type_override_skip (d ov : List (PyStr × String)) (nn k : PyStr)
    (ct : String) (h : normalize_part_name k ≠ nn) :
    get_content_type ⟨d, (nn, ct) :: ov⟩ k = get_content_type ⟨d, ov⟩ k := by
  simp only [get_content_type, assocLookup]
  rw [if_neg h]

/-- Appending an `open_part` call for (a name normalizing like) `k` makes its
content type the last supplied one. -/
theorem last_supplied_type_append_hit (ops : List (PyStr × String)) (name k : PyStr)
    (ct : String) (h : normalize_part_name name = normalize_part_name k) :
    last_supplied_type (ops ++ [(name, ct)]) k = some ct := by
  unfold last_supplied_type
  rw [List.filter_append]
  have hf : List.filter (fun p => normalize_part_name p.1 == normalize_part_name k)
      [(name, ct)] = [(name, ct)] := by
    simp [List.filter_singleton, h]
  rw [hf, List.getLast?_concat]
  rfl

/-- Appending an `open_part` call for an unrelated name leaves the last
supplied content type of `k` unchanged. -/
theorem last_supplied_type_append_miss (ops : List (PyStr × String)) (name k : PyStr)
    (ct : String) (h : normalize_part_name name ≠ normalize_part_name k) :
    last_supplied_type (ops ++ [(name, ct)]) k = last_supplied_type ops k := by
  unfold last_supplied_type
  rw [List.filter_append]
  have hf : List.filter (fun p => normalize_part_name p.1 == normalize_part_name k)
      [(name, ct)] = [] := by
    simp [List.filter_singleton, h]
  rw [hf, List.append_nil]

/-- One successful `open_part` call preserves the fresh-run invariant (stream
declared, manifest unflushed, no Defaults) and makes the manifest resolve
every name to the content type supplied by the latest call for it. -/
theorem writer_open_part_step (ops : List (PyStr × String)) (w w1 : OPCPackageWriter)
    (name : PyStr) (ct : String)
    (hhas : w.has_content_types_stream = true)
    (hwr : w.content_types_written = false)
    (hdef : w.content_types.default_types = [])
    (hres : ∀ k, get_content_type w.content_types k = last_supplied_type ops k)
    (hstep : writer_open_part w name ct = .ok w1) :
    w1.has_content_types_stream = true ∧ w1.content_types_written = false ∧
      w1.content_types.default_types = [] ∧
      ∀ k, get_content_type w1.content_types k
        = last_supplied_type (ops ++ [(name, ct)]) k := by
  simp only [writer_open_part] at hstep
  cases hchk : check_part_name (normalize_part_name name) with
  | error e => rw [hchk] at hstep; cases hstep
  | ok u =>
    cases u
    rw [hchk] at hstep
    by_cases hg : get_content_type w.content_types (normalize_part_name name) = some ct
    · simp [hhas, hwr, hg] at hstep
      subst hstep
      refine ⟨hhas, hwr, hdef, fun k => ?_⟩
      by_cases hk : normalize_part_name name = normalize_part_name k
      · rw [last_supplied_type_append_hit _ _ _ _ hk]
        have hfix := normalize_fix_of_check name hchk
        have hkk : normalize_part_name k = normalize_part_name (normalize_part_name name) := by
          rw [hfix, hk]
        rw [get_content_type_congr w.content_types k (normalize_part_name name) hkk]
        exact hg
      · rw [last_supplied_type_append_miss _ _ _ _ hk]
        exact hres k
    · simp [hhas, hwr, hg] at hstep
      subst hstep
      refine ⟨rfl, rfl, hdef, fun k => ?_⟩
      by_cases hk : normalize_part_name name = normalize_part_name k
      · rw [last_supplied_type_append_hit _ _ _ _ hk]
        exact get_content_type_override_hit _ _ _ _ _ hk.symm
      · rw [last_supplied_type_append_miss _ _ _ _ hk, ← hres k]
        exact get_content_type_override_skip w.content_types.default_types
          w.content_types.overrides (normalize_part_name name) k ct
          (fun he => hk he.symm)

/-- Running `open_part` calls from any state satisfying the fresh-run
invariant keeps it, with the processed calls appended. -/
theorem run_open_parts_inv (ops : List (PyStr × String)) :
    ∀ (ops0 : List (PyStr × String)) (w0 w : OPCPackageWriter),
      w0.has_content_types_stream = true → w0.content_types_written = false →
      w0.content_types.default_types = [] →
      (∀ k, get_content_type w0.content_types k = last_supplied_type ops0 k) →
      run_open_parts w0 ops = .ok w →
      w.has_content_types_stream = true ∧ w.content_types_written = false ∧
        w.content_types.default_types = [] ∧
        ∀ k, get_content_type w.content_types k = last_supplied_type (ops0 ++ ops) k := by
  induction ops with
  | nil =>
    intro ops0 w0 w h1 h2 h3 h4 hrun
    have hw : w0 = w := by
      simpa [run_open_parts, List.foldlM, pure, Except.pure] using hrun
    subst hw
    simpa [List.append_nil] using ⟨h1, h2, h3, h4⟩
  | cons op ops ih =>
    intro ops0 w0 w h1 h2 h3 h4 hrun
    unfold run_open_parts at hrun
    rw [List.foldlM_cons] at hrun
    cases hstep : writer_open_part w0 op.1 op.2 with
    | error e => rw [hstep] at hrun; cases hrun
    | ok w1 =>
      rw [hstep] at hrun
      obtain ⟨g1, g2, g3, g4⟩ :=
        writer_open_part_step ops0 w0 w1 op.1 op.2 h1 h2 h3 h4 hstep
      have hmain := ih (ops0 ++ [(op.1, op.2)]) w1 w g1 g2 g3 g4 hrun
      simpa [List.append_assoc] using hmain

/-- C2 (amended): after any sequence of successful `open_part(name, ct)`
calls on a fresh writer, the content-types manifest resolves each part name
to the content type supplied by the most recent call for that normalized
name (when the same part is opened again with a different type before the
manifest is flushed, the later call wins — the counterexample below shows
the claim fails as stated in exactly that situation); and once the manifest
has been flushed, an otherwise valid `open_part` whose content type
disagrees with what the manifest currently resolves for the name raises the
InconsistentManifest error, while an agreeing call succeeds and leaves the
writer unchanged. -/
theorem C2_manifest_resolves_last_supplied_and_flush_locks :
    (∀ (ops : List (PyStr × String)) (w : OPCPackageWriter),
      run_open_parts fresh_writer ops = .ok w →
      ∀ (name : PyStr) (ct : String), last_supplied_type ops name = some ct →
        get_content_type w.content_types name = some ct)
    ∧ (∀ (w : OPCPackageWriter) (name : PyStr) (ct ct0 : String),
      w.has_content_types_stream = true → w.content_types_written = true →
      check_part_name (normalize_part_name name) = .ok () →
      get_content_type w.content_types name = some ct0 →
      (ct ≠ ct0 → writer_open_part w name ct = .error .inconsistentManifest)
      ∧ (ct = ct0 → writer_open_part w name ct = .ok w)) := by
  constructor
  · intro ops w hrun name ct hlast
    obtain ⟨-, -, -, hres⟩ :=
      run_open_parts_inv ops [] fresh_writer w rfl rfl rfl (fun k => rfl) hrun
    rw [hres name]
    simpa using hlast
  · intro w name ct ct0 hhas hwr hchk hres
    have hfix := normalize_fix_of_check name hchk
    have hgn : get_content_type w.content_types (normalize_part_name name) = some ct0 := by
      rw [get_content_type_congr w.content_types (normalize_part_name name) name hfix]
      exact hres
    constructor
    · intro hne
      simp only [writer_open_part]
      rw [hchk]
      simp [hhas, hwr, hgn, Ne.symm hne]
    · intro heq
      subst heq
      simp only [writer_open_part]
      rw [hchk]
      simp [hhas, hgn]

/-- C2 counterexample: both calls of the sequence
`open_part("/a.bin", "t1"); open_part("/a.bin", "t2")` succeed on a fresh
writer (the manifest is not flushed yet), but afterwards the manifest
resolves `/a.bin` to `"t2"`, not to the `"t1"` supplied by the first call —
the manifest therefore does not resolve the name to the supplied type "for
each such part" as the claim states. -/
theorem C2_counterexample_last_write_wins :
    (run_open_parts fresh_writer [(pyS "/a.bin", "t1"), (pyS "/a.bin", "t2")]).map
        (fun w => get_content_type w.content_types (pyS "/a.bin"))
      = .ok (some "t2")
    ∧ "t2" ≠ "t1" :=
  ⟨by rfl, by decide⟩

/-- Witness for C2 on concrete data: one call registers `/doc.xml` as
`application/xml`; on a flushed writer with that manifest, reopening with
`text/plain` raises InconsistentManifest and reopening with
`application/xml` succeeds. -/
theorem C2_witness :
    get_content_type
        (OPCPackageWriter.content_types
          ⟨true, ⟨[], [(pyS "/doc.xml", "application/xml")]⟩, false⟩)
        (pyS "/doc.xml") = some "application/xml"
    ∧ writer_open_part ⟨true, ⟨[], [(pyS "/doc.xml", "application/xml")]⟩, true⟩
        (pyS "/doc.xml") "text/plain" = .error .inconsistentManifest
    ∧ writer_open_part ⟨true, ⟨[], [(pyS "/doc.xml", "application/xml")]⟩, true⟩
        (pyS "/doc.xml") "application/xml"
        = .ok ⟨true, ⟨[], [(pyS "/doc.xml", "application/xml")]⟩, true⟩ := by
  refine ⟨?_, ?_, ?_⟩
  · exact C2_manifest_resolves_last_supplied_and_flush_locks.1
      [(pyS "/doc.xml", "application/xml")] _ (by rfl) (pyS "/doc.xml")
      "application/xml" (by rfl)
  · exact (C2_manifest_resolves_last_supplied_and_flush_locks.2
      ⟨true, ⟨[], [(pyS "/doc.xml", "application/xml")]⟩, true⟩ (pyS "/doc.xml")
      "text/plain" "application/xml" rfl rfl (by rfl) (by rfl)).1 (by decide)
  · exact (C2_manifest_resolves_last_supplied_and_flush_locks.2
      ⟨true, ⟨[], [(pyS "/doc.xml", "application/xml")]⟩, true⟩ (pyS "/doc.xml")
      "application/xml" "application/xml" rfl rfl (by rfl) (by rfl)).2 rfl

/-- Dropping one element less splits off the element at that position
(`getD` form). -/
theorem drop_eq_getD_cons :
    ∀ (l : List PyBytes) (j : Nat), j < l.length →
      l.drop j = l.getD j [] :: l.drop (j + 1) := by
  intro l
  induction l with
  | nil => intro j h; simp at h
  | cons b t ih =>
    intro j h
    cases j with
    | zero => simp
    | succ m =>
      simp only [List.drop_succ_cons, List.getD_cons_succ]
      exact ih m (by simpa using h)

/-- Correctness of the `read(-1)` loop over a package holding the fragment
items of the split `Bs` of a part `P`: fragments `0 .. n-1` as `[i].piece`,
fragment `n` only as `[n].last.piece`.  Starting right after fragment `j` has
been opened and drained (so `fragment_number = j + 1` and `finished` exactly
when `j = n`), the loop returns the accumulator followed by the remaining
fragments. -/
theorem fpr_read_loop_spec (pkg : PhysicalItems) (P : PyStr) (Bs : List PyBytes)
    (n : Nat) (hlen : Bs.length = n + 1)
    (hpieces : ∀ i, i < n → pkg (piece_item_name P i) = some (Bs.getD i []))
    (hnone : pkg (piece_item_name P n) = none)
    (hlast : pkg (last_piece_item_name P n) = some (Bs.getD n [])) :
    ∀ (fuel j : Nat) (acc : PyBytes), j ≤ n → n - j ≤ fuel →
      fpr_read_loop pkg P fuel (j + 1) (decide (j = n)) acc
        = .ok (acc ++ (Bs.drop (j + 1)).flatten) := by
  intro fuel
  induction fuel with
  | zero =>
    intro j acc hj hf
    have hjn : j = n := by omega
    subst hjn
    have hdrop : Bs.drop (j + 1) = [] := List.drop_eq_nil_of_le (by omega)
    simp [fpr_read_loop, hdrop]
  | succ f ih =>
    intro j acc hj hf
    by_cases hjn : j = n
    · subst hjn
      have hdrop : Bs.drop (j + 1) = [] := List.drop_eq_nil_of_le (by omega)
      simp [fpr_read_loop, hdrop]
    · have hjlt : j < n := lt_of_le_of_ne hj hjn
      have hdec : decide (j = n) = false := by simp [hjn]
      rw [hdec, fpr_read_loop]
      simp only [Bool.false_eq_true, if_false]
      by_cases hj1 : j + 1 < n
      · have hop : open_next_item pkg P (j + 1) false
            = .ok (Bs.getD (j + 1) [], j + 2, false) := by
          simp [open_next_item, hpieces (j + 1) hj1]
        rw [hop]
        have hrec := ih (j + 1) (acc ++ Bs.getD (j + 1) []) (by omega) (by omega)
        rw [show decide (j + 1 = n) = false by simp; omega] at hrec
        have hgoal : fpr_read_loop pkg P f (j + 1 + 1) false (acc ++ Bs.getD (j + 1) [])
            = .ok (acc ++ (Bs.drop (j + 1)).flatten) := by
          rw [hrec, drop_eq_getD_cons Bs (j + 1) (by omega), List.flatten_cons,
            List.append_assoc]
        exact hgoal
      · have hj1n : j + 1 = n := by omega
        have hop : open_next_item pkg P (j + 1) false
            = .ok (Bs.getD (j + 1) [], j + 2, true) := by
          simp [open_next_item, hj1n, hnone, hlast]
        rw [hop]
        have hrec := ih (j + 1) (acc ++ Bs.getD (j + 1) []) (by omega) (by omega)
        rw [show decide (j + 1 = n) = true by simp [hj1n]] at hrec
        have hgoal : fpr_read_loop pkg P f (j + 1 + 1) true (acc ++ Bs.getD (j + 1) [])
            = .ok (acc ++ (Bs.drop (j + 1)).flatten) := by
          rw [hrec, drop_eq_getD_cons Bs (j + 1) (by omega), List.flatten_cons,
            List.append_assoc]
        exact hgoal

/-- C1: for every byte string split into fragment items `P/[0].piece`, ...,
`P/[n-1].piece`, `P/[n].last.piece` offered by the backend, constructing a
`FragmentedPartReader` for `P` and reading it to exhaustion with `read(-1)`
returns exactly the concatenation of all fragments. -/
theorem C1_fragmented_read_reassembles
    (pkg : PhysicalItems) (P : PyStr) (Bs : List PyBytes) (n : Nat)
    (hlen : Bs.length = n + 1)
    (hpieces : ∀ i, i < n → pkg (piece_item_name P i) = some (Bs.getD i []))
    (hnone : pkg (piece_item_name P n) = none)
    (hlast : pkg (last_piece_item_name P n) = some (Bs.getD n [])) :
    (mk_fragmented_part_reader pkg P >>= fun r => fpr_read_all pkg r (n + 1))
      = .ok Bs.flatten := by
  have hloop := fpr_read_loop_spec pkg P Bs n hlen hpieces hnone hlast
  have hflat : Bs.getD 0 [] ++ (Bs.drop 1).flatten = Bs.flatten := by
    rw [← List.flatten_cons, ← drop_eq_getD_cons Bs 0 (by omega), List.drop_zero]
  cases n with
  | zero =>
    have hmk : mk_fragmented_part_reader pkg P = .ok ⟨P, 1, true, Bs.getD 0 []⟩ := by
      simp [mk_fragmented_part_reader, open_next_item, hnone, hlast]
    rw [hmk]
    show fpr_read_loop pkg P 1 1 true (Bs.getD 0 []) = .ok Bs.flatten
    have hthis := hloop 1 0 (Bs.getD 0 []) (by omega) (by omega)
    rw [show decide (0 = 0) = true by simp] at hthis
    simp only [Nat.zero_add] at hthis
    rw [← hflat]
    exact hthis
  | succ m =>
    have hmk : mk_fragmented_part_reader pkg P = .ok ⟨P, 1, false, Bs.getD 0 []⟩ := by
      simp [mk_fragmented_part_reader, open_next_item, hpieces 0 (by omega)]
    rw [hmk]
    show fpr_read_loop pkg P (m + 2) 1 false (Bs.getD 0 []) = .ok Bs.flatten
    have hthis := hloop (m + 2) 0 (Bs.getD 0 []) (by omega) (by omega)
    rw [show decide (0 = m + 1) = false by simp] at hthis
    simp only [Nat.zero_add] at hthis
    rw [← hflat]
    exact hthis

/-- Witness for C1: the split of the bytes `[104, 105, 33]` into the items
`/p/[0].piece = [104, 105]` and `/p/[1].last.piece = [33]`. -/
theorem C1_witness :
    (mk_fragmented_part_reader
        (fun s => if s = pyS "/p/[0].piece" then some [104, 105]
          else if s = pyS "/p/[1].last.piece" then some [33] else none)
        (pyS "/p")
      >>= fun r => fpr_read_all
        (fun s => if s = pyS "/p/[0].piece" then some [104, 105]
          else if s = pyS "/p/[1].last.piece" then some [33] else none) r 2)
      = .ok [104, 105, 33] :=
  (C1_fragmented_read_reassembles
      (fun s => if s = pyS "/p/[0].piece" then some [104, 105]
        else if s = pyS "/p/[1].last.piece" then some [33] else none)
      (pyS "/p") [[104, 105], [33]] 1 rfl (by decide) (by decide) (by decide)).trans
    (by rfl)

/-- C10: a fragmented part whose only physical item is `P/[0].last.piece`
constructs successfully and reads back exactly that fragment; and
`_open_next_item` raises the *MissingFragment* `KeyError` exactly when
neither `P/[k].piece` nor `P/[k].last.piece` is present for the next
fragment number `k`. -/
theorem C10_single_last_piece_and_missing_fragment :
    (∀ (pkg : PhysicalItems) (P : PyStr) (B : PyBytes),
      pkg (piece_item_name P 0) = none →
      pkg (last_piece_item_name P 0) = some B →
      (mk_fragmented_part_reader pkg P >>= fun r => fpr_read_all pkg r 1) = .ok B)
    ∧ (∀ (pkg : PhysicalItems) (P : PyStr) (k : Nat) (fin : Bool),
      (∃ e, open_next_item pkg P k fin = .error e) ↔
        (pkg (piece_item_name P k) = none ∧ pkg (last_piece_item_name P k) = none)) := by
  constructor
  · intro pkg P B h0 hl
    have hmk : mk_fragmented_part_reader pkg P = .ok ⟨P, 1, true, B⟩ := by
      simp [mk_fragmented_part_reader, open_next_item, h0, hl]
    rw [hmk]
    show fpr_read_loop pkg P 1 1 true B = .ok B
    simp [fpr_read_loop]
  · intro pkg P k fin
    constructor
    · rintro ⟨e, he⟩
      unfold open_next_item at he
      cases h1 : pkg (piece_item_name P k) with
      | some d => rw [h1] at he; cases he
      | none =>
        rw [h1] at he
        cases h2 : pkg (last_piece_item_name P k) with
        | some d => rw [h2] at he; cases he
        | none => exact ⟨rfl, rfl⟩
    · rintro ⟨h1, h2⟩
      exact ⟨(), by simp [open_next_item, h1, h2]⟩

/-- Witness for C10: a package whose only item is `/q/[0].last.piece`, and a
probe showing the missing-fragment error at the next index 1 of a package
missing both items there. -/
theorem C10_witness :
    (mk_fragmented_part_reader
        (fun s => if s = pyS "/q/[0].last.piece" then some [65] else none) (pyS "/q")
      >>= fun r => fpr_read_all
        (fun s => if s = pyS "/q/[0].last.piece" then some [65] else none) r 1)
      = .ok [65]
    ∧ ∃ e, open_next_item
        (fun s => if s = pyS "/q/[0].last.piece" then some [65] else none)
        (pyS "/q") 1 false = .error e :=
  ⟨C10_single_last_piece_and_missing_fragment.1 _ (pyS "/q") [65]
      (by decide) (by decide),
    (C10_single_last_piece_and_missing_fragment.2 _ (pyS "/q") 1 false).mpr
      ⟨by decide, by decide⟩⟩

/-- C7: when the `.rels` companion part of a source part is absent from the
package, `get_raw_relationships` yields the empty sequence instead of
raising (the lookup `KeyError` is caught). -/
theorem C7_missing_rels_part_yields_empty
    (r : RelsPackageReader) (part_name : PyStr)
    (h : normalize_part_name (rels_part_for part_name) ∉ r.parts) :
    get_raw_relationships r part_name = .ok [] := by
  unfold get_raw_relationships reader_open_part
  rw [if_neg h]

/-- Witness for C7: an empty package queried for the relationships of
`/word/document.xml`. -/
theorem C7_witness :
    get_raw_relationships ⟨[], fun _ => []⟩ (pyS "/word/document.xml") = .ok [] :=
  C7_missing_rels_part_yields_empty ⟨[], fun _ => []⟩ (pyS "/word/document.xml")
    (by decide)

/-- C8 counterexample: `from_serialization` uppercases its argument before
the enum lookup, so the TargetMode value `"INTERNAL"` — a value other than
`Internal` and `External` — decodes successfully (to INTERNAL) instead of
failing as the claim demands. -/
theorem C8_counterexample_case_insensitive_value :
    read_relationships
        [⟨relationshipTag,
          [("Id", "r1"), ("Type", "t"), ("Target", "x"), ("TargetMode", "INTERNAL")],
          ""⟩]
      = .ok [⟨"r1", "t", "x", .INTERNAL⟩]
    ∧ "INTERNAL" ≠ "Internal" ∧ "INTERNAL" ≠ "External" :=
  ⟨by rfl, by decide, by decide⟩

/-- C8 (amended): decoding a `Relationship` element without a `TargetMode`
attribute yields target mode INTERNAL; the values `Internal` and `External`
yield the corresponding modes; and an ASCII value whose uppercased form is
neither `INTERNAL` nor `EXTERNAL` fails with the MalformedRelationship
error.  (Other case variants of the two keywords are accepted as well —
see the counterexample — which is the only deviation from the claim as
stated.) -/
theorem C8_target_mode_decoding (i t g : String) :
    (read_relationships
        [⟨relationshipTag, [("Id", i), ("Type", t), ("Target", g)], ""⟩]
      = .ok [⟨i, t, g, .INTERNAL⟩])
    ∧ (read_relationships
        [⟨relationshipTag,
          [("Id", i), ("Type", t), ("Target", g), ("TargetMode", "Internal")], ""⟩]
      = .ok [⟨i, t, g, .INTERNAL⟩])
    ∧ (read_relationships
        [⟨relationshipTag,
          [("Id", i), ("Type", t), ("Target", g), ("TargetMode", "External")], ""⟩]
      = .ok [⟨i, t, g, .EXTERNAL⟩])
    ∧ (∀ v : String, (∀ c ∈ v.data, c.toNat < 128) →
        pyUpper v ≠ "INTERNAL" → pyUpper v ≠ "EXTERNAL" →
        read_relationships
            [⟨relationshipTag,
              [("Id", i), ("Type", t), ("Target", g), ("TargetMode", v)], ""⟩]
          = .error .malformedTargetMode) := by
  refine ⟨by rfl, by rfl, by rfl, ?_⟩
  intro v _ hv1 hv2
  have hser : target_mode_from_serialization v = .error () := by
    simp only [target_mode_from_serialization]
    rw [if_neg hv1, if_neg hv2]
  have helem : read_relationship_elem
      ⟨relationshipTag,
        [("Id", i), ("Type", t), ("Target", g), ("TargetMode", v)], ""⟩
      = .error .malformedTargetMode := by
    simp [read_relationship_elem, requiredAttrib, attribLookup, hser]
    rfl
  simp [read_relationships, helem]
  rfl

/-- Witness for C8 at concrete attribute values, exercising the default, the
`External` keyword, and the failing value `Sideways`. -/
theorem C8_witness :
    read_relationships
        [⟨relationshipTag, [("Id", "r1"), ("Type", "t"), ("Target", "x")], ""⟩]
      = .ok [⟨"r1", "t", "x", .INTERNAL⟩]
    ∧ read_relationships
        [⟨relationshipTag,
          [("Id", "r1"), ("Type", "t"), ("Target", "x"), ("TargetMode", "External")],
          ""⟩]
      = .ok [⟨"r1", "t", "x", .EXTERNAL⟩]
    ∧ read_relationships
        [⟨relationshipTag,
          [("Id", "r1"), ("Type", "t"), ("Target", "x"), ("TargetMode", "Sideways")],
          ""⟩]
      = .error .malformedTargetMode :=
  ⟨(C8_target_mode_decoding "r1" "t" "x").1,
    (C8_target_mode_decoding "r1" "t" "x").2.2.1,
    (C8_target_mode_decoding "r1" "t" "x").2.2.2 "Sideways" (by decide)
      (by decide) (by decide)⟩

/-- C6: the spec and `test_core_properties.py` expect the decoded record of
the Core Properties example (contentStatus `Reviewed`, title
`OPC Core Properties`, created `2005-06-12`, three language-tagged keywords)
to carry exactly those values.  In this revision of `core_properties.py`,
`extract_str` and `extract_keywords` are TODO stubs returning `""` and `[]`,
so decoding the example sets the matched fields to empty stubs instead: the
code contradicts its own test suite. -/
theorem C6_core_properties_decode_is_stubbed :
    core_properties_from_xml
        [⟨cpNS ++ "contentStatus", [], "Reviewed"⟩,
         ⟨dctermsNS ++ "created",
          [("\x7bhttp://www.w3.org/2001/XMLSchema-instance\x7dtype", "dcterms:W3CDTF")],
          "2005-06-12"⟩,
         ⟨dcNS ++ "title", [], "OPC Core Properties"⟩,
         ⟨cpNS ++ "value",
          [("\x7bhttp://www.w3.org/XML/1998/namespace\x7dlang", "en-US")], "color"⟩,
         ⟨cpNS ++ "value",
          [("\x7bhttp://www.w3.org/XML/1998/namespace\x7dlang", "en-CA")], "colour"⟩,
         ⟨cpNS ++ "value",
          [("\x7bhttp://www.w3.org/XML/1998/namespace\x7dlang", "fr-FR")], "couleur"⟩,
         ⟨cpNS ++ "keywords", [], ""⟩,
         ⟨cpNS ++ "coreProperties", [], ""⟩]
      = { contentStatus := some "", created := some "", title := some "",
          keywords := some [] }
    ∧ (some "" : Option String) ≠ some "Reviewed"
    ∧ (some "" : Option String) ≠ some "OPC Core Properties"
    ∧ (some ([] : List (Option String × String)))
        ≠ some [(some "en-US", "color"), (some "en-CA", "colour"),
                (some "fr-FR", "couleur")] :=
  ⟨by rfl, by decide, by decide, by decide⟩
